import Mathlib

/-!
Verification of the scratch-off interaction module (`js/interaction.js`) of the
Interactive_Scaffolding repository.

The development shallowly embeds the scratch-off session controller:

* the coverage raster (`Raster`) with its device-pixel alpha channel;
* `destination-out` compositing (`destOut`), the only operation a stroke
  performs on the raster: `scratchStroke` draws an arbitrary source-alpha mask
  (its randomized jitter, gradients and bristles included) and the context,
  being in `destination-out` mode for the whole call, composites that mask
  onto the raster, so one `scratchStroke` call is modelled as compositing an
  arbitrary source mask `src : ℕ → ℕ → ℕ`;
* the alpha sampling of `clearedRatio` with its grid step
  `Math.max(6, Math.round(8 * (window.devicePixelRatio || 1)))`;
* the per-session pointer state machine of `setupScratchOff`
  (`pointerdown` / `pointermove` / `pointerup` / `pointercancel` /
  `pointerleave` handlers, `endScratch`, `maybeReveal`,
  `revealMaskedElement`), with each event carrying its `performance.now()`
  clock value;
* the trajectory down-sampling rule of the `pointermove` handler
  (`dist >= 2 || t - lastLoggedPoint.t >= 16`, where
  `Math.hypot(dx, dy) >= 2` is rendered by the equivalent `dx*dx + dy*dy ≥ 4`
  so that the decision stays executable over ℚ);
* the `pred-submit` click handler of the prediction popover.

Coordinates, times and ratios are rationals; 8-bit alpha values are naturals.
`resizeCanvasIfNeeded` is the identity whenever the measured element size is
unchanged, which is the situation all the statements below are about, so the
model keeps the raster dimensions fixed for the lifetime of a session.
-/

namespace Scratch

/-- Alpha value of a canvas pixel (0..255) after `destination-out`
compositing of a source alpha `s` onto a destination alpha `d`: the
destination keeps the fraction `(255 - s) / 255` of its alpha. -/
def destOut (d s : ℕ) : ℕ :=
  d * (255 - s) / 255

/-- The coverage raster: device-pixel dimensions and the alpha channel, as
read back by `ctx.getImageData` (index `(y * w + x) * 4 + 3`). -/
structure Raster where
  w : ℕ
  h : ℕ
  alpha : ℕ → ℕ → ℕ

/-- One call to `scratchStroke`: whatever shapes the brush draws, the context
is in `destination-out` mode, so the raster's alpha at every pixel is
composited with the stroke's source-alpha mask `src`. -/
def applyStroke (r : Raster) (src : ℕ → ℕ → ℕ) : Raster :=
  { r with alpha := fun x y => destOut (r.alpha x y) (src x y) }

/-- The sampling step of `clearedRatio`:
`Math.max(6, Math.round(8 * (window.devicePixelRatio || 1)))`, in device
pixels.  JavaScript `Math.round` on a positive argument is `⌊x + 1/2⌋`,
which is Mathlib's `round`. -/
def gridStep (dpr : ℚ) : ℕ :=
  max 6 (round (8 * dpr)).toNat

/-- The grid points visited by the double loop
`for (y = 0; y < h; y += step) for (x = 0; x < w; x += step)`:
all pairs `(x, y)` of multiples of `step` with `x < w` and `y < h`
(for `step ≥ 1`, which `gridStep` guarantees). -/
def gridPoints (w h step : ℕ) : List (ℕ × ℕ) :=
  ((List.range h).filter (fun y => y % step == 0)).flatMap
    (fun y => ((List.range w).filter (fun x => x % step == 0)).map (fun x => (x, y)))

/-- The grid points counted as cleared: alpha exactly zero
(`if (data[idx] === 0) cleared++`). -/
def clearedPoints (r : Raster) (step : ℕ) : List (ℕ × ℕ) :=
  (gridPoints r.w r.h step).filter (fun p => r.alpha p.1 p.2 == 0)

/-- `clearedRatio()`: coarse sampling of the alpha channel over the
device-pixel raster; `return total ? cleared / total : 0`. -/
def clearedRatio (r : Raster) (dpr : ℚ) : ℚ :=
  let step := gridStep dpr
  let total := (gridPoints r.w r.h step).length
  let cleared := (clearedPoints r step).length
  if total = 0 then 0 else (cleared : ℚ) / (total : ℚ)

/-- One retained trajectory sample `{x, y, t}`: logical position and
milliseconds since stroke start. -/
structure Sample where
  x : ℚ
  y : ℚ
  t : ℚ
deriving DecidableEq

/-- One `logScratch` emission: the retained points of a stroke and the
`clearedRatio` recorded in its `meta`. -/
structure LogEvent where
  points : List Sample
  ratio : ℚ
deriving DecidableEq

/-- The down-sampling decision of the `pointermove` handler: retain when no
sample has been logged yet, or the Euclidean distance to the last retained
sample is at least 2 (`Math.hypot(dx, dy) >= 2`, i.e. `dx² + dy² ≥ 4`), or
at least 16 ms elapsed since it. -/
def retainSample (lastLogged : Option Sample) (x y t : ℚ) : Bool :=
  match lastLogged with
  | none => true
  | some lp =>
      decide (4 ≤ (x - lp.x) * (x - lp.x) + (y - lp.y) * (y - lp.y))
        || decide (16 ≤ t - lp.t)

/-- The mutable state captured by the closures of `setupScratchOff` for one
masked span: the raster, `scaffold-revealed` membership of the host element,
the `isScratching` / `didMove` / `lastPoint` stroke state, the trajectory
buffer (`strokePoints`, `strokeStartTs`, `lastLoggedPoint`) and the sequence
of `logScratch` emissions. -/
structure SessionState where
  raster : Raster
  revealed : Bool
  isScratching : Bool
  didMove : Bool
  strokeStart : ℚ
  lastPoint : Option (ℚ × ℚ)
  strokePoints : List Sample
  lastLogged : Option Sample
  log : List LogEvent

/-- Pointer events delivered to the canvas.  `down` and `move` carry the
logical position and the `performance.now()` clock; `move` additionally
carries the source-alpha mask that `scratchStroke` paints for the segment. -/
inductive PEvent where
  | down (x y now : ℚ)
  | move (x y now : ℚ) (src : ℕ → ℕ → ℕ)
  | up
  | cancel
  | leave

/-- The session right after `setupScratchOff` ("armed"): cover painted, no
stroke in progress, nothing logged. -/
def initState (r : Raster) : SessionState :=
  { raster := r
    revealed := false
    isScratching := false
    didMove := false
    strokeStart := 0
    lastPoint := none
    strokePoints := []
    lastLogged := none
    log := [] }

/-- `endScratch`, the shared handler of `pointerup`, `pointercancel` and
`pointerleave`.  An open stroke is closed; when movement occurred,
`maybeReveal()` runs (reveal exactly when `clearedRatio() >= 0.75`, i.e.
`revealMaskedElement` marks the span revealed) and one trajectory event is
logged with the stroke's retained points and the cleared ratio. -/
def endScratch (dpr : ℚ) (s : SessionState) : SessionState :=
  if s.isScratching = false then s
  else
    let s1 := { s with isScratching := false, lastPoint := none }
    if s.didMove then
      let ratio := clearedRatio s.raster dpr
      let s2 := if 3 / 4 ≤ ratio then { s1 with revealed := true } else s1
      { s2 with log := s2.log ++ [⟨s.strokePoints, ratio⟩] }
    else s1

/-- One pointer event processed by the handlers of `setupScratchOff`. -/
def step (dpr : ℚ) (s : SessionState) (e : PEvent) : SessionState :=
  match e with
  | .down x y now =>
      if s.revealed then s
      else
        { s with
            isScratching := true
            didMove := false
            strokeStart := now
            lastPoint := some (x, y)
            strokePoints := [⟨x, y, 0⟩]
            lastLogged := some ⟨x, y, 0⟩ }
  | .move x y now src =>
      if s.isScratching = false then s
      else
        let r' := match s.lastPoint with
          | some _ => applyStroke s.raster src
          | none => s.raster
        let t := now - s.strokeStart
        let keep := retainSample s.lastLogged x y t
        { s with
            raster := r'
            lastPoint := some (x, y)
            didMove := true
            strokePoints :=
              if keep then s.strokePoints ++ [⟨x, y, t⟩] else s.strokePoints
            lastLogged := if keep then some ⟨x, y, t⟩ else s.lastLogged }
  | .up => endScratch dpr s
  | .cancel => endScratch dpr s
  | .leave => endScratch dpr s

/-- A whole sequence of pointer events processed in order. -/
def run (dpr : ℚ) (s : SessionState) (es : List PEvent) : SessionState :=
  es.foldl (step dpr) s

/-- The three stroke-ending pointer events (`pointerup`, `pointercancel`,
`pointerleave`), which `setupScratchOff` registers on the same handler. -/
def isEndEvent : PEvent → Bool
  | .up => true
  | .cancel => true
  | .leave => true
  | _ => false

/-- Raster `r'` has the same dimensions as `r` and pointwise no more alpha
(no more coverage) than `r`. -/
def RasterLe (r' r : Raster) : Prop :=
  r'.w = r.w ∧ r'.h = r.h ∧ ∀ x y, r'.alpha x y ≤ r.alpha x y

/-- JavaScript `String.prototype.trim`, on a character list. -/
def jsTrim (s : List Char) : List Char :=
  ((s.dropWhile Char.isWhitespace).reverse.dropWhile Char.isWhitespace).reverse

/-- Whether `sub` occurs at the start of `hay`. -/
def listBeginsWith : List Char → List Char → Bool
  | _, [] => true
  | [], _ :: _ => false
  | a :: hs, b :: bs => a == b && listBeginsWith hs bs

/-- JavaScript `String.prototype.includes`: `sub` occurs contiguously
somewhere in `hay` (always true for the empty `sub`). -/
def jsIncludes : List Char → List Char → Bool
  | [], sub => sub.isEmpty
  | a :: t, sub => listBeginsWith (a :: t) sub || jsIncludes t sub

/-- What the `pred-submit` click handler does to the popover and the masked
span: accept (reveal the span, close the popover) or reject (shake). -/
inductive PredResult where
  | accept
  | shake
deriving DecidableEq

/-- The `pred-submit` click handler: `val` is the input lowercased and
trimmed, `wordLower` the hidden word lowercased; accept when
`wordLower.includes(val) || val.length > 2 && wordLower.includes(val.substring(0, 3))`. -/
def predSubmit (rawInput word : List Char) : PredResult :=
  let val := jsTrim (rawInput.map Char.toLower)
  let wordLower := word.map Char.toLower
  if (jsIncludes wordLower val
      || (decide (2 < val.length) && jsIncludes wordLower (val.take 3))) = true
  then .accept
  else .shake

/-- A source mask with constant alpha `a` everywhere. -/
def flatSrc (a : ℕ) : ℕ → ℕ → ℕ :=
  fun _ _ => a

/-- A fully opaque cover raster of the given device-pixel size. -/
def coverRaster (w h : ℕ) : Raster :=
  { w := w, h := h, alpha := fun _ _ => 255 }

/-- A 16×16 raster whose alpha is zero except at device pixel (8, 8): at
DPR 1 the sampling grid has the four points (0,0), (8,0), (0,8), (8,8), of
which exactly three are cleared, so `clearedRatio` is exactly 3/4. -/
def thresholdRaster : Raster :=
  { w := 16, h := 16, alpha := fun x y => if x == 8 && y == 8 then 255 else 0 }

/-- A session on raster `r` in the middle of a stroke that has already
moved: used to instantiate the stroke-end theorems. -/
def strokingOn (r : Raster) : SessionState :=
  { raster := r
    revealed := false
    isScratching := true
    didMove := true
    strokeStart := 0
    lastPoint := some (2, 1)
    strokePoints := [⟨1, 1, 0⟩]
    lastLogged := some ⟨1, 1, 0⟩
    log := [] }

/-- A concrete gesture that fully erases an 8×8 cover and ends the stroke:
pointer-down, one move compositing full source alpha everywhere, pointer-up. -/
def demoRevealTrace : List PEvent :=
  [.down 1 1 0, .move 2 1 5 (flatSrc 255), .up]

/-- A stationary synthetic stroke: pointer-down at (5, 5) at time 0, then
`m` pointer-move events spaced 1 ms apart (times 1, 2, ..., m) at the same
constant position (the moves composite nothing, matching "no movement"). -/
def statEvents (m : ℕ) : List PEvent :=
  PEvent.down 5 5 0 :: (List.range m).map (fun i => PEvent.move 5 5 (Nat.cast (i + 1)) (flatSrc 0))

/-- The session after a stationary stroke of `m` moves on an 8×8 cover. -/
def statState (m : ℕ) : SessionState :=
  run 1 (initState (coverRaster 8 8)) (statEvents m)

/-- The synthetic stroke of the spec's down-sampling acceptance test:
pointer-down, then 1000 pointer-move events spaced 1 ms apart at a constant
position. -/
def stationaryStroke : List PEvent :=
  statEvents 1000

/-- The session after the synthetic 1000-move stationary stroke. -/
def stationaryRun : SessionState :=
  statState 1000

/-! ## Helper lemmas -/

/-- The sampling grid is the set of step-aligned device pixels inside the
raster. -/
theorem mem_gridPoints (w h step x y : ℕ) :
    (x, y) ∈ gridPoints w h step ↔ (x % step = 0 ∧ y % step = 0 ∧ x < w ∧ y < h) := by
  simp only [gridPoints, List.mem_flatMap, List.mem_filter, List.mem_range, List.mem_map,
    beq_iff_eq, Prod.mk.injEq]
  constructor
  · rintro ⟨b, ⟨hb, hbm⟩, a, ⟨ha, ham⟩, hax, hby⟩
    subst hax; subst hby
    exact ⟨ham, hbm, ha, hb⟩
  · rintro ⟨hxm, hym, hx, hy⟩
    exact ⟨y, ⟨hy, hym⟩, x, ⟨hx, hxm⟩, rfl, rfl⟩

/-- A grid point is counted as cleared exactly when its alpha is zero. -/
theorem mem_clearedPoints (r : Raster) (step x y : ℕ) :
    (x, y) ∈ clearedPoints r step ↔
      ((x, y) ∈ gridPoints r.w r.h step ∧ r.alpha x y = 0) := by
  simp [clearedPoints, List.mem_filter]

/-- The empty list occurs in every character list. -/
theorem jsIncludes_nil (hay : List Char) : jsIncludes hay [] = true := by
  cases hay <;> simp [jsIncludes, listBeginsWith, List.isEmpty]

/-! ## Claim theorems -/

/-- C8 counterexample: at device pixel ratio 2 the sampling grid spacing is
`max 6 (round (8 * 2)) = 16` device pixels, outside the claimed range of 6 to
8 device pixels. -/
theorem grid_spacing_not_6_to_8 :
    gridStep 2 = 16 ∧ ¬ (6 ≤ gridStep 2 ∧ gridStep 2 ≤ 8) := by
  have h16 : gridStep 2 = 16 := by with_unfolding_all rfl
  exact ⟨h16, fun hc => by omega⟩

/-- C8 (amended): `clearedRatio` samples the alpha channel on the regular
grid of device pixels aligned to `gridStep dpr = max 6 (round (8 * dpr))`
across the whole raster — a spacing of at least 6 device pixels, and at most
8 only when the device pixel ratio is at most 1 — counting grid points whose
alpha is exactly zero versus total grid points and returning erased divided
by total (0 when there are no grid points). -/
theorem sampling_grid_characterization (r : Raster) (dpr : ℚ) :
    6 ≤ gridStep dpr ∧
    (∀ x y : ℕ, (x, y) ∈ gridPoints r.w r.h (gridStep dpr) ↔
        (x % gridStep dpr = 0 ∧ y % gridStep dpr = 0 ∧ x < r.w ∧ y < r.h)) ∧
    (∀ x y : ℕ, (x, y) ∈ clearedPoints r (gridStep dpr) ↔
        ((x, y) ∈ gridPoints r.w r.h (gridStep dpr) ∧ r.alpha x y = 0)) ∧
    clearedRatio r dpr =
      (if (gridPoints r.w r.h (gridStep dpr)).length = 0 then 0
       else ((clearedPoints r (gridStep dpr)).length : ℚ)
              / ((gridPoints r.w r.h (gridStep dpr)).length : ℚ)) ∧
    (dpr ≤ 1 → gridStep dpr ≤ 8) := by
  refine ⟨le_max_left _ _, fun x y => mem_gridPoints _ _ _ _ _,
    fun x y => mem_clearedPoints _ _ _ _, rfl, fun hd => ?_⟩
  have hround : round (8 * dpr) ≤ round (8 : ℚ) := by
    rw [round_eq, round_eq]
    exact Int.floor_le_floor (by linarith)
  have h8 : round ((8 : ℚ)) = 8 := by norm_num
  have : (round (8 * dpr)).toNat ≤ 8 := by
    have := Int.toNat_le_toNat (hround.trans_eq h8)
    simpa using this
  simp only [gridStep]
  omega

/-- C9: `clearedRatio` is total and always lands in [0, 1]: the division is
guarded (`total ? cleared / total : 0`, so a raster yielding zero grid
samples produces 0), and the erased count never exceeds the total count. -/
theorem clearedRatio_total_bounds (r : Raster) (dpr : ℚ) :
    0 ≤ clearedRatio r dpr ∧ clearedRatio r dpr ≤ 1 ∧
    (clearedPoints r (gridStep dpr)).length ≤ (gridPoints r.w r.h (gridStep dpr)).length ∧
    ((gridPoints r.w r.h (gridStep dpr)).length = 0 → clearedRatio r dpr = 0) := by
  have hle : (clearedPoints r (gridStep dpr)).length
      ≤ (gridPoints r.w r.h (gridStep dpr)).length :=
    List.length_filter_le _ _
  refine ⟨?_, ?_, hle, fun h0 => by simp [clearedRatio, h0]⟩ <;>
    · unfold clearedRatio
      by_cases h0 : (gridPoints r.w r.h (gridStep dpr)).length = 0
      · simp [h0]
      · have hpos : (0 : ℚ) < ((gridPoints r.w r.h (gridStep dpr)).length : ℚ) := by
          exact_mod_cast Nat.pos_of_ne_zero h0
        simp only [h0, if_false]
        first
          | exact div_nonneg (by positivity) hpos.le
          | exact (div_le_one hpos).mpr (by exact_mod_cast hle)

/-- C10: in the prediction-gate (high responsibility) path, submitting an
empty prediction input always reveals the hidden word: after lowercasing and
trimming the input is the empty string, every string contains the empty
string as a substring, so the acceptance test passes for every hidden word. -/
theorem empty_prediction_always_reveals (word : List Char) :
    jsIncludes (word.map Char.toLower) [] = true ∧
    predSubmit [] word = PredResult.accept := by
  refine ⟨jsIncludes_nil _, ?_⟩
  unfold predSubmit
  simp [jsTrim, jsIncludes_nil]

/-- Each stroke-ending event runs `endScratch`. -/
theorem step_end_eq_endScratch (dpr : ℚ) (s : SessionState) (e : PEvent)
    (he : isEndEvent e = true) : step dpr s e = endScratch dpr s := by
  cases e <;> simp_all [isEndEvent, step]

/-- C1: when a stroke that recorded movement ends (pointer-up, pointer-cancel
or pointer-leave), the session transitions to "revealed" exactly when the
sampled cleared fraction is at least 3/4: a ratio of exactly 0.75 reveals,
any ratio strictly below 0.75 does not. -/
theorem stroke_end_reveals_iff_threshold (dpr : ℚ) (e : PEvent) (s : SessionState)
    (he : isEndEvent e = true) (hs : s.isScratching = true) (hm : s.didMove = true)
    (hr : s.revealed = false) :
    ((step dpr s e).revealed = true ↔ 3 / 4 ≤ clearedRatio s.raster dpr) := by
  rw [step_end_eq_endScratch dpr s e he]
  unfold endScratch
  rw [hs, hm]
  simp only [Bool.true_eq_false, if_false, if_true]
  split
  · simpa
  · simp_all

/-- C1 witness: on the 16×16 raster whose cleared ratio is exactly 3/4, a
pointer-up after movement reveals. -/
theorem stroke_end_reveals_iff_threshold_witness :
    isEndEvent PEvent.up = true ∧
    (strokingOn thresholdRaster).isScratching = true ∧
    (strokingOn thresholdRaster).didMove = true ∧
    (strokingOn thresholdRaster).revealed = false ∧
    ((step 1 (strokingOn thresholdRaster) PEvent.up).revealed = true ↔
      3 / 4 ≤ clearedRatio (strokingOn thresholdRaster).raster 1) :=
  ⟨rfl, rfl, rfl, rfl,
    stroke_end_reveals_iff_threshold 1 PEvent.up (strokingOn thresholdRaster) rfl rfl rfl rfl⟩

/-- C6: a stroke that records no movement — pointer-down on an idle session
immediately followed by pointer-up, pointer-cancel or pointer-leave with no
pointer-move in between — leaves the raster, the cleared ratio, the revealed
state and the trajectory log unchanged. -/
theorem zero_movement_stroke_no_effect (dpr x y now : ℚ) (e : PEvent) (s : SessionState)
    (hidle : s.isScratching = false) (hend : isEndEvent e = true) :
    (step dpr (step dpr s (.down x y now)) e).raster = s.raster ∧
    (step dpr (step dpr s (.down x y now)) e).log = s.log ∧
    (step dpr (step dpr s (.down x y now)) e).revealed = s.revealed ∧
    clearedRatio (step dpr (step dpr s (.down x y now)) e).raster dpr
      = clearedRatio s.raster dpr := by
  rw [step_end_eq_endScratch dpr _ e hend]
  unfold step endScratch
  by_cases hrev : s.revealed = true
  · simp [hrev, hidle]
  · simp [hrev, hidle]

/-- C6 witness: a click without drag on an armed 8×8 session changes
nothing. -/
theorem zero_movement_stroke_no_effect_witness :
    (initState (coverRaster 8 8)).isScratching = false ∧
    isEndEvent PEvent.cancel = true ∧
    ((step 1 (step 1 (initState (coverRaster 8 8)) (.down 2 3 7)) PEvent.cancel).raster
        = (initState (coverRaster 8 8)).raster ∧
      (step 1 (step 1 (initState (coverRaster 8 8)) (.down 2 3 7)) PEvent.cancel).log
        = (initState (coverRaster 8 8)).log ∧
      (step 1 (step 1 (initState (coverRaster 8 8)) (.down 2 3 7)) PEvent.cancel).revealed
        = (initState (coverRaster 8 8)).revealed ∧
      clearedRatio
          (step 1 (step 1 (initState (coverRaster 8 8)) (.down 2 3 7)) PEvent.cancel).raster 1
        = clearedRatio (initState (coverRaster 8 8)).raster 1) :=
  ⟨rfl, rfl, zero_movement_stroke_no_effect 1 2 3 7 PEvent.cancel
    (initState (coverRaster 8 8)) rfl rfl⟩

/-- C7: pointer-cancel and pointer-leave are handled exactly like pointer-up:
all three events produce the same successor state; when they close a stroke
that recorded movement, the stroke is closed (no stroke in progress, last
point dropped), exactly one trajectory event is appended to the log with the
partial coverage measured at that moment, and the session is revealed exactly
when that coverage reaches the threshold. -/
theorem end_events_identical (dpr : ℚ) (s : SessionState)
    (hs : s.isScratching = true) (hm : s.didMove = true) :
    step dpr s PEvent.cancel = step dpr s PEvent.up ∧
    step dpr s PEvent.leave = step dpr s PEvent.up ∧
    (step dpr s PEvent.up).isScratching = false ∧
    (step dpr s PEvent.up).lastPoint = none ∧
    (step dpr s PEvent.up).log
      = s.log ++ [⟨s.strokePoints, clearedRatio s.raster dpr⟩] ∧
    (step dpr s PEvent.up).revealed
      = (s.revealed || decide (3 / 4 ≤ clearedRatio s.raster dpr)) := by
  refine ⟨rfl, rfl, ?_⟩
  have hup : step dpr s PEvent.up = endScratch dpr s := rfl
  rw [hup]
  unfold endScratch
  rw [hs, hm]
  simp only [Bool.true_eq_false, if_false, if_true]
  split
  · next hrat => simp [hrat]
  · next hrat => simp [hrat]

/-- C7 witness: ending a moved stroke on an 8×8 cover behaves identically
for pointer-up, pointer-cancel and pointer-leave. -/
theorem end_events_identical_witness :
    (strokingOn (coverRaster 8 8)).isScratching = true ∧
    (strokingOn (coverRaster 8 8)).didMove = true ∧
    (step 1 (strokingOn (coverRaster 8 8)) PEvent.cancel
        = step 1 (strokingOn (coverRaster 8 8)) PEvent.up ∧
      step 1 (strokingOn (coverRaster 8 8)) PEvent.leave
        = step 1 (strokingOn (coverRaster 8 8)) PEvent.up ∧
      (step 1 (strokingOn (coverRaster 8 8)) PEvent.up).isScratching = false ∧
      (step 1 (strokingOn (coverRaster 8 8)) PEvent.up).lastPoint = none ∧
      (step 1 (strokingOn (coverRaster 8 8)) PEvent.up).log
        = (strokingOn (coverRaster 8 8)).log
            ++ [⟨(strokingOn (coverRaster 8 8)).strokePoints,
                  clearedRatio (strokingOn (coverRaster 8 8)).raster 1⟩] ∧
      (step 1 (strokingOn (coverRaster 8 8)) PEvent.up).revealed
        = ((strokingOn (coverRaster 8 8)).revealed
            || decide (3 / 4 ≤ clearedRatio (strokingOn (coverRaster 8 8)).raster 1))) :=
  ⟨rfl, rfl, end_events_identical 1 (strokingOn (coverRaster 8 8)) rfl rfl⟩

/-- `endScratch` always leaves the session with no stroke in progress. -/
theorem endScratch_isScratching (dpr : ℚ) (s : SessionState) :
    (endScratch dpr s).isScratching = false := by
  unfold endScratch
  split
  · assumption
  · dsimp only
    split
    · split <;> rfl
    · rfl

/-- One event keeps the invariant "revealed implies no stroke in progress":
reveal only ever happens inside `endScratch`, after the stroke flag is
cleared, and `pointerdown` is ignored on a revealed session. -/
theorem step_preserves_idle (dpr : ℚ) (e : PEvent) (s : SessionState)
    (h : s.revealed = true → s.isScratching = false) :
    (step dpr s e).revealed = true → (step dpr s e).isScratching = false := by
  cases e with
  | down x y now =>
      simp only [step]
      split
      · exact h
      · next hrev => exact fun hc => absurd hc hrev
  | move x y now src =>
      simp only [step]
      split
      · exact h
      · next hscr => exact fun hc => absurd (h hc) hscr
  | up => exact fun _ => endScratch_isScratching dpr s
  | cancel => exact fun _ => endScratch_isScratching dpr s
  | leave => exact fun _ => endScratch_isScratching dpr s

/-- The invariant "revealed implies no stroke in progress" holds after any
event sequence from any state satisfying it. -/
theorem run_preserves_idle (dpr : ℚ) (es : List PEvent) (s : SessionState)
    (h : s.revealed = true → s.isScratching = false) :
    (run dpr s es).revealed = true → (run dpr s es).isScratching = false := by
  induction es generalizing s with
  | nil => exact h
  | cons e es ih => exact ih (step dpr s e) (step_preserves_idle dpr e s h)

/-- C2: once a session reached the terminal "revealed" state, every further
pointer event — down, move, up, cancel or leave — is ignored: the state
(raster, trajectory buffer, log, revealed flag, everything) is unchanged, so
no painting, no logging and no second reveal transition can occur. -/
theorem revealed_ignores_all_pointer_events (dpr : ℚ) (r : Raster) (es : List PEvent)
    (e : PEvent) (h : (run dpr (initState r) es).revealed = true) :
    step dpr (run dpr (initState r) es) e = run dpr (initState r) es := by
  have hidle : (run dpr (initState r) es).isScratching = false :=
    run_preserves_idle dpr es (initState r) (fun _ => rfl) h
  cases e with
  | down x y now => simp only [step]; rw [if_pos h]
  | move x y now src => simp only [step]; rw [if_pos hidle]
  | up => simp only [step]; unfold endScratch; rw [if_pos hidle]
  | cancel => simp only [step]; unfold endScratch; rw [if_pos hidle]
  | leave => simp only [step]; unfold endScratch; rw [if_pos hidle]

/-- C2 witness: a concrete gesture fully erases the cover, the session
reveals, and a later pointer-down is ignored. -/
theorem revealed_ignores_all_pointer_events_witness :
    (run 1 (initState (coverRaster 8 8)) demoRevealTrace).revealed = true ∧
    step 1 (run 1 (initState (coverRaster 8 8)) demoRevealTrace) (.down 0 0 30)
      = run 1 (initState (coverRaster 8 8)) demoRevealTrace :=
  ⟨by with_unfolding_all rfl,
    revealed_ignores_all_pointer_events 1 (coverRaster 8 8) demoRevealTrace
      (.down 0 0 30) (by with_unfolding_all rfl)⟩

/-- `destination-out` compositing never increases alpha. -/
theorem destOut_le (d a : ℕ) : destOut d a ≤ d := by
  unfold destOut
  calc d * (255 - a) / 255 ≤ d * 255 / 255 :=
        Nat.div_le_div_right (Nat.mul_le_mul_left d (Nat.sub_le 255 a))
    _ = d := Nat.mul_div_cancel d (by norm_num)

/-- A stroke only lowers coverage, pointwise. -/
theorem applyStroke_rasterLe (r : Raster) (src : ℕ → ℕ → ℕ) :
    RasterLe (applyStroke r src) r :=
  ⟨rfl, rfl, fun _ _ => destOut_le _ _⟩

/-- `RasterLe` is reflexive. -/
theorem rasterLe_refl (r : Raster) : RasterLe r r :=
  ⟨rfl, rfl, fun _ _ => le_refl _⟩

/-- `RasterLe` is transitive. -/
theorem rasterLe_trans {r1 r2 r3 : Raster} (h12 : RasterLe r1 r2) (h23 : RasterLe r2 r3) :
    RasterLe r1 r3 :=
  ⟨h12.1.trans h23.1, h12.2.1.trans h23.2.1,
    fun x y => (h12.2.2 x y).trans (h23.2.2 x y)⟩

/-- `endScratch` never touches the raster. -/
theorem endScratch_raster (dpr : ℚ) (s : SessionState) :
    (endScratch dpr s).raster = s.raster := by
  unfold endScratch
  split
  · rfl
  · dsimp only
    split
    · split <;> rfl
    · rfl

/-- One event never restores coverage: the raster after a step is pointwise
at most the raster before, with unchanged dimensions. -/
theorem step_rasterLe (dpr : ℚ) (s : SessionState) (e : PEvent) :
    RasterLe (step dpr s e).raster s.raster := by
  cases e with
  | down x y now =>
      simp only [step]
      split
      · exact rasterLe_refl _
      · exact rasterLe_refl _
  | move x y now src =>
      simp only [step]
      split
      · exact rasterLe_refl _
      · dsimp only
        cases hlp : s.lastPoint with
        | none => simp only [hlp]; exact rasterLe_refl _
        | some p => simp only [hlp]; exact applyStroke_rasterLe _ _
  | up =>
      show RasterLe (endScratch dpr s).raster s.raster
      rw [endScratch_raster]
      exact rasterLe_refl _
  | cancel =>
      show RasterLe (endScratch dpr s).raster s.raster
      rw [endScratch_raster]
      exact rasterLe_refl _
  | leave =>
      show RasterLe (endScratch dpr s).raster s.raster
      rw [endScratch_raster]
      exact rasterLe_refl _

/-- A whole event sequence never restores coverage. -/
theorem run_rasterLe (dpr : ℚ) (s : SessionState) (es : List PEvent) :
    RasterLe (run dpr s es).raster s.raster := by
  induction es generalizing s with
  | nil => exact rasterLe_refl _
  | cons e es ih => exact rasterLe_trans (ih (step dpr s e)) (step_rasterLe dpr s e)

/-- Lower pointwise coverage with the same dimensions can only raise the
sampled cleared ratio. -/
theorem clearedRatio_mono_raster (dpr : ℚ) {r' r : Raster} (h : RasterLe r' r) :
    clearedRatio r dpr ≤ clearedRatio r' dpr := by
  obtain ⟨hw, hh, hal⟩ := h
  unfold clearedRatio clearedPoints
  rw [hw, hh]
  have hcount : ((gridPoints r.w r.h (gridStep dpr)).filter
        (fun p => r.alpha p.1 p.2 == 0)).length
      ≤ ((gridPoints r.w r.h (gridStep dpr)).filter
        (fun p => r'.alpha p.1 p.2 == 0)).length := by
    rw [← List.countP_eq_length_filter, ← List.countP_eq_length_filter]
    refine List.countP_mono_left (fun p _ hp => ?_)
    have hz : r.alpha p.1 p.2 = 0 := by simpa using hp
    have : r'.alpha p.1 p.2 = 0 := Nat.le_zero.mp (hz ▸ hal p.1 p.2)
    simpa using this
  by_cases h0 : (gridPoints r.w r.h (gridStep dpr)).length = 0
  · simp [h0]
  · have hpos : (0 : ℚ) < ((gridPoints r.w r.h (gridStep dpr)).length : ℚ) := by
      exact_mod_cast Nat.pos_of_ne_zero h0
    simp only [h0, if_false]
    gcongr

/-- C3: across any sequence of pointer events on one session whose measured
size does not change, the cumulative cleared ratio is monotonically
non-decreasing: strokes composite with `destination-out`, which only erases
alpha, and nothing repaints the cover. -/
theorem clearedRatio_monotone (dpr : ℚ) (s : SessionState) (es : List PEvent) :
    clearedRatio s.raster dpr ≤ clearedRatio (run dpr s es).raster dpr :=
  clearedRatio_mono_raster dpr (run_rasterLe dpr s es)

/-- The `sqrt` threshold test over a nonnegative rational radicand agrees
with its squared form. -/
theorem two_le_sqrt_cast (q : ℚ) (hq : 0 ≤ q) :
    2 ≤ Real.sqrt ((q : ℚ) : ℝ) ↔ 4 ≤ q := by
  have hnn : (0 : ℝ) ≤ ((q : ℚ) : ℝ) := by exact_mod_cast hq
  rw [Real.le_sqrt (by norm_num) hnn, show ((2 : ℝ) ^ 2) = ((4 : ℚ) : ℝ) by norm_num]
  exact_mod_cast Iff.rfl

/-- C4: during a stroke, a pointer-move sample is retained (appended to the
trajectory buffer) exactly when no sample has been retained yet, or the
Euclidean distance from the last retained sample is at least 2 logical
pixels, or at least 16 ms elapsed since the last retained sample; otherwise
the sample is dropped. -/
theorem move_sample_retained_iff (dpr x y now : ℚ) (src : ℕ → ℕ → ℕ) (s : SessionState)
    (hs : s.isScratching = true) :
    ((step dpr s (.move x y now src)).strokePoints
        = s.strokePoints ++ [⟨x, y, now - s.strokeStart⟩]
      ↔ (s.lastLogged = none
          ∨ ∃ lp : Sample, s.lastLogged = some lp
              ∧ (2 ≤ Real.sqrt (((x - lp.x : ℚ) : ℝ) ^ 2 + ((y - lp.y : ℚ) : ℝ) ^ 2)
                  ∨ 16 ≤ (now - s.strokeStart) - lp.t))) := by
  simp only [step]
  rw [if_neg (by simp [hs])]
  dsimp only
  cases hll : s.lastLogged with
  | none => simp [retainSample, hll]
  | some lp =>
      have hiff : (2 ≤ Real.sqrt (((x : ℝ) - (lp.x : ℝ)) ^ 2 + ((y : ℝ) - (lp.y : ℝ)) ^ 2))
          ↔ 4 ≤ (x - lp.x) * (x - lp.x) + (y - lp.y) * (y - lp.y) := by
        rw [show ((x : ℝ) - (lp.x : ℝ)) ^ 2 + ((y : ℝ) - (lp.y : ℝ)) ^ 2
            = (((x - lp.x) * (x - lp.x) + (y - lp.y) * (y - lp.y) : ℚ) : ℝ) by
              push_cast; ring]
        exact two_le_sqrt_cast _
          (by nlinarith [mul_self_nonneg (x - lp.x), mul_self_nonneg (y - lp.y)])
      by_cases hA : 4 ≤ (x - lp.x) * (x - lp.x) + (y - lp.y) * (y - lp.y)
      · have hk : retainSample (some lp) x y (now - s.strokeStart) = true := by
          simp [retainSample, hA]
        rw [hk]
        simp [hiff, hA]
      · by_cases hB : 16 ≤ (now - s.strokeStart) - lp.t
        · have hk : retainSample (some lp) x y (now - s.strokeStart) = true := by
            simp [retainSample, hB]
          rw [hk]
          simp [hB]
        · have hk : retainSample (some lp) x y (now - s.strokeStart) = false := by
            simp [retainSample, hA, hB]
          rw [hk]
          simp [hiff, hA, hB]

/-- C4 witness: with the last retained sample at (1, 1) and time 0, a move
to (5, 1) at 1 ms is retained exactly because its distance is at least 2. -/
theorem move_sample_retained_iff_witness :
    (strokingOn (coverRaster 8 8)).isScratching = true ∧
    ((step 1 (strokingOn (coverRaster 8 8)) (.move 5 1 1 (flatSrc 255))).strokePoints
        = (strokingOn (coverRaster 8 8)).strokePoints
            ++ [⟨5, 1, 1 - (strokingOn (coverRaster 8 8)).strokeStart⟩]
      ↔ ((strokingOn (coverRaster 8 8)).lastLogged = none
          ∨ ∃ lp : Sample, (strokingOn (coverRaster 8 8)).lastLogged = some lp
              ∧ (2 ≤ Real.sqrt (((5 - lp.x : ℚ) : ℝ) ^ 2 + ((1 - lp.y : ℚ) : ℝ) ^ 2)
                  ∨ 16 ≤ (1 - (strokingOn (coverRaster 8 8)).strokeStart) - lp.t))) :=
  ⟨rfl, move_sample_retained_iff 1 5 1 1 (flatSrc 255) (strokingOn (coverRaster 8 8)) rfl⟩

/-- Appending one more stationary move to the synthetic stroke. -/
theorem statState_succ (m : ℕ) :
    statState (m + 1) = step 1 (statState m) (.move 5 5 (Nat.cast (m + 1)) (flatSrc 0)) := by
  unfold statState statEvents run
  have hr : List.range (m + 1) = List.range m ++ [m] := by
    rw [Nat.add_one]
    apply List.range_succ
  rw [hr, List.map_append]
  simp [List.foldl_append]

/-- For a stationary move the distance test is void, so retention is decided
by the 16 ms rule alone. -/
theorem retainSample_stationary (c t : ℚ) :
    retainSample (some ⟨5, 5, c⟩) 5 5 t = decide (16 ≤ t - c) := by
  show (decide (4 ≤ ((5 : ℚ) - 5) * ((5 : ℚ) - 5) + ((5 : ℚ) - 5) * ((5 : ℚ) - 5))
      || decide (16 ≤ t - c)) = decide (16 ≤ t - c)
  rw [decide_eq_false (by norm_num), Bool.false_or]

/-- Invariant of the stationary synthetic stroke after `m` moves at times
1..m ms: still stroking, stroke started at 0, last retained sample at time
`16 * (m / 16)`, and `1 + m / 16` samples retained in total (the 16 ms rule
retains one sample per full 16 ms even with zero movement). -/
theorem statState_invariant (m : ℕ) :
    (statState m).isScratching = true ∧
    (statState m).strokeStart = 0 ∧
    (statState m).lastLogged = some ⟨5, 5, ((16 * (m / 16) : ℕ) : ℚ)⟩ ∧
    (statState m).strokePoints.length = 1 + m / 16 := by
  induction m with
  | zero =>
      refine ⟨?_, ?_, ?_, ?_⟩ <;> with_unfolding_all rfl
  | succ m ih =>
      obtain ⟨h1, h2, h3, h4⟩ := ih
      rw [statState_succ]
      simp only [step]
      rw [if_neg (by simp [h1])]
      dsimp only
      rw [h2, h3, sub_zero, retainSample_stationary]
      by_cases hc : 16 * (m / 16) + 16 ≤ m + 1
      · have hd : (16 : ℚ) ≤ (Nat.cast (m + 1) : ℚ) - ((16 * (m / 16) : ℕ) : ℚ) := by
          rw [le_sub_iff_add_le]
          exact_mod_cast (by omega : 16 + 16 * (m / 16) ≤ m + 1)
        rw [decide_eq_true hd]
        refine ⟨h1, rfl, ?_, ?_⟩
        · have hm : 16 * ((m + 1) / 16) = m + 1 := by omega
          rw [if_pos rfl, hm]
        · rw [if_pos rfl]
          simp only [List.length_append, List.length_singleton, h4]
          omega
      · have hd : ¬ (16 : ℚ) ≤ (Nat.cast (m + 1) : ℚ) - ((16 * (m / 16) : ℕ) : ℚ) := by
          rw [not_le, sub_lt_iff_lt_add]
          exact_mod_cast (by omega : m + 1 < 16 + 16 * (m / 16))
        rw [decide_eq_false hd]
        refine ⟨h1, rfl, ?_, ?_⟩
        · rw [if_neg (by simp)]
          have hm : 16 * (m / 16) = 16 * ((m + 1) / 16) := by omega
          rw [hm]
        · rw [if_neg (by simp), h4]
          omega

/-- C5 counterexample: the synthetic stroke of 1000 stationary pointer-move
events spaced 1 ms apart retains more than just the first sample — the 16 ms
rule keeps one sample per 16 ms even without movement. -/
theorem stationary_stroke_not_only_first :
    stationaryRun.strokePoints.length = 63 ∧
    ¬ (stationaryRun.strokePoints.length = 1) := by
  have h : stationaryRun.strokePoints.length = 1 + 1000 / 16 :=
    (statState_invariant 1000).2.2.2
  omega

/-- C5 (amended): for a stationary stroke of `m` 1 ms-spaced moves the
recorder retains the first sample plus one sample per full 16 ms elapsed
(rule (c) of the down-sampling filter fires on time alone); for the
1000-event synthetic stroke that is 63 samples, not 1. -/
theorem stationary_stroke_sample_count (m : ℕ) :
    (statState m).strokePoints.length = 1 + m / 16 ∧
    stationaryRun.strokePoints.length = 63 := by
  refine ⟨(statState_invariant m).2.2.2, ?_⟩
  have h : stationaryRun.strokePoints.length = 1 + 1000 / 16 :=
    (statState_invariant 1000).2.2.2
  omega

end Scratch
